import Mathlib

/-!
# AutoAcceptAG — verification of the command discovery and dispatch logic

Shallow embedding of `src/extension.ts` (the VS Code extension
"Auto Accept AG").  The provider catalog, built-in command list,
`getEnabledProviderCommands` and `discoverAcceptCommands` are translated as
pure Lean functions; the extension's mutable process state (enabled flag,
polling timer, discovered command list) together with its event handlers
(toggle, configuration change, asynchronous discovery completion, timer
tick) are modelled as an explicit state machine `step`.
-/

namespace AutoAcceptAG

/-- JavaScript `haystack.includes(needle)` on strings: boolean prefix test,
building block for substring search. -/
def charsPrefix : List Char → List Char → Bool
  | [], _ => true
  | _ :: _, [] => false
  | a :: as, b :: bs => a == b && charsPrefix as bs

/-- Boolean substring search: does `needle` occur contiguously in `hay`? -/
def charsSub (needle : List Char) (hay : List Char) : Bool :=
  match hay with
  | [] => needle.isEmpty
  | _ :: t => charsPrefix needle hay || charsSub needle t

/-- JavaScript string `hay.includes(needle)` (substring containment). -/
def strIncludes (hay needle : String) : Bool :=
  charsSub needle.toList hay.toList

/-- JavaScript `s.toLowerCase()`: character-wise lowering (all the command
identifiers and keywords involved are ASCII, where this is exact; this is
`String.toLower` re-expressed by structural recursion so that concrete
instances reduce). -/
def toLowerStr (s : String) : String :=
  ⟨s.data.map Char.toLower⟩

/-- `extension.ts` interface `ProviderDef`. -/
structure ProviderDef where
  key : String
  label : String
  contextKeywords : List String
  safeCommands : List String
  aggressiveCommands : List String
deriving DecidableEq

/-- `extension.ts` constant `PROVIDERS`. -/
def PROVIDERS : List ProviderDef :=
  [ { key := "antigravity"
    , label := "Antigravity"
    , contextKeywords := ["antigravity"]
    , safeCommands :=
        [ "antigravity.terminalCommand.accept"
        , "antigravity.prioritized.terminalSuggestion.accept" ]
    , aggressiveCommands :=
        [ "antigravity.agent.acceptAgentStep"
        , "antigravity.command.accept"
        , "antigravity.prioritized.agentAcceptAllInFile"
        , "antigravity.prioritized.agentAcceptFocusedHunk"
        , "antigravity.prioritized.supercompleteAccept"
        , "antigravity.acceptCompletion" ] }
  , { key := "copilot"
    , label := "Copilot"
    , contextKeywords := ["copilot"]
    , safeCommands :=
        [ "github.copilot.terminal.acceptCommand"
        , "github.copilot.chat.acceptTerminalCommand" ]
    , aggressiveCommands :=
        [ "github.copilot.acceptSuggestion" ] } ]

/-- `extension.ts` constant `BUILTIN_COMMANDS`. -/
def BUILTIN_COMMANDS : List String :=
  [ "workbench.action.chat.acceptTerminalCommand"
  , "workbench.action.chat.runInTerminal"
  , "chat.action.acceptCommand"
  , "chat.acceptTerminalCommand"
  , "workbench.action.terminal.chat.acceptCommand"
  , "workbench.action.terminal.acceptSuggestion" ]

/-- Default value of the `autoAcceptAG.commandPatterns` setting, from the
`config.get` call in `discoverAcceptCommands`. -/
def defaultPatterns : List String :=
  ["accept", "approve", "continue", "runCommand", "confirmAction"]

/-- The `autoAcceptAG.*` configuration values a discovery run reads
(each `config.get` already resolved to its effective value):
`enabled`, `aggressiveMode`, `providers.<key>` (a map from provider key),
and `commandPatterns`. -/
structure Config where
  enabled : Bool
  aggressiveMode : Bool
  providerEnabled : String → Bool
  commandPatterns : List String

/-- The contribution of one provider to `getEnabledProviderCommands`:
the body of the `for` loop (safe commands when the provider is enabled,
aggressive commands additionally when aggressive mode is on). -/
def providerContribution (cfg : Config) (p : ProviderDef) : List String :=
  if cfg.providerEnabled p.key then
    p.safeCommands ++ (if cfg.aggressiveMode then p.aggressiveCommands else [])
  else []

/-- `extension.ts` `getEnabledProviderCommands`. -/
def getEnabledProviderCommands (cfg : Config) : List String :=
  (PROVIDERS.map (providerContribution cfg)).flatten ++ BUILTIN_COMMANDS

/-- JavaScript `[...new Set(l)]` keeps the first occurrence of each
element, in order; `seen` accumulates elements already emitted. -/
def dedupAux (seen : List String) : List String → List String
  | [] => []
  | x :: xs =>
      if x ∈ seen then dedupAux seen xs
      else x :: dedupAux (x :: seen) xs

/-- JavaScript `[...new Set(l)]`. -/
def dedupFirst (l : List String) : List String := dedupAux [] l

/-- The `enabledContextKeywords` list computed inside
`discoverAcceptCommands`: context keywords of the enabled providers. -/
def enabledContextKeywords (cfg : Config) : List String :=
  ((PROVIDERS.filter fun p => cfg.providerEnabled p.key).map
    fun p => p.contextKeywords).flatten

/-- The `allContextKeywords` list of `discoverAcceptCommands`: enabled
provider keywords plus the built-in context keywords. -/
def allContextKeywords (cfg : Config) : List String :=
  enabledContextKeywords cfg ++ ["chat", "terminal"]

/-- The `disabledKeywords` list of `discoverAcceptCommands`: context
keywords of the currently disabled providers. -/
def disabledKeywords (cfg : Config) : List String :=
  ((PROVIDERS.filter fun p => !cfg.providerEnabled p.key).map
    fun p => p.contextKeywords).flatten

/-- The classifier body of `fromPatterns` in `discoverAcceptCommands`. -/
def patternCandidate (cfg : Config) (allContextKeywords : List String)
    (cmd : String) : Bool :=
  let lowerCmd := toLowerStr cmd
  let isRelevantContext := allContextKeywords.any fun kw => strIncludes lowerCmd kw
  let isAcceptAction := cfg.commandPatterns.any fun p => strIncludes lowerCmd (toLowerStr p)
  let isSafeAction := ["terminal", "agent", "chat"].any fun kw => strIncludes lowerCmd kw
  let isCompletionCmd := strIncludes lowerCmd "completion" ||
    strIncludes lowerCmd "suggestion" || strIncludes lowerCmd "supercomplete"
  if !cfg.aggressiveMode && isCompletionCmd then false
  else isRelevantContext && isAcceptAction && isSafeAction

/-- `extension.ts` `discoverAcceptCommands`, as a pure function of the
fetched host command registry (`allCommands`) and the configuration; the
returned list is the value assigned to the module-level
`discoveredCommands`. -/
def discoverAcceptCommands (allCommands : List String) (cfg : Config) :
    List String :=
  let enabledKnownCommands := getEnabledProviderCommands cfg
  let fromKnown := enabledKnownCommands.filter fun cmd => allCommands.contains cmd
  let fromPatterns := allCommands.filter (patternCandidate cfg (allContextKeywords cfg))
  let filteredPatterns := fromPatterns.filter fun cmd =>
    !((disabledKeywords cfg).any fun kw => strIncludes (toLowerStr cmd) kw)
  dedupFirst (fromKnown ++ filteredPatterns)

/-- The default configuration: `enabled=true`, `aggressiveMode=false`,
every provider enabled, default command patterns. -/
def defaultConfig : Config :=
  { enabled := true
  , aggressiveMode := false
  , providerEnabled := fun _ => true
  , commandPatterns := defaultPatterns }

/-! ## The extension's process state and event handlers

`extension.ts` keeps module-level mutable state: `isEnabled`,
`pollingTimer` (present or `undefined`), `discoveredCommands`, and the
observable effect of the polling callback (the `executeCommand` calls it
fires).  The handlers — `toggleAutoAccept`, the `onDidChangeConfiguration`
listener, the `.then` continuations of the asynchronous
`discoverAcceptCommands()` calls, and each `setInterval` tick — are
modelled as events of an explicit step function. -/

/-- Which call site started a pending asynchronous discovery run: the one
in `activate` or the one in the configuration-change listener (their
`.then` continuations differ). -/
inductive ContKind where
  | activation
  | onConfig
deriving DecidableEq

/-- The extension's mutable process state.  `timer` records whether
`pollingTimer` currently holds a handle; `pending` the discovery runs
whose continuations have not yet executed; `log` the invocations the
dispatch loop has fired so far, each paired with the outcome the host
reported for it (`Promise.allSettled` discards these outcomes). -/
structure SysState where
  isEnabled : Bool
  timer : Bool
  discovered : List String
  pending : List ContKind
  log : List (String × Bool)

/-- Events driven by the host: the toggle command, a configuration change
(carrying the new effective `enabled` value), completion of a pending
discovery run (`fetch = none` models a rejected registry fetch, in which
case the `.then` continuation is skipped; `cfg` is the configuration read
during that run), and a timer tick (`outcome` says, for each command, what
the host reports for its invocation). -/
inductive Event where
  | toggle
  | configChange (enabled : Bool)
  | complete (k : ContKind) (fetch : Option (List String)) (cfg : Config)
  | tick (outcome : String → Bool)

/-- `extension.ts` `startPolling`: clears any existing timer, then arms a
new one (so afterwards a handle exists). -/
def startPolling (s : SysState) : SysState := { s with timer := true }

/-- `extension.ts` `stopPolling`. -/
def stopPolling (s : SysState) : SysState := { s with timer := false }

/-- `extension.ts` `toggleAutoAccept`: flip the flag, then start or stop
polling to match it. -/
def toggleAutoAccept (s : SysState) : SysState :=
  let s' := { s with isEnabled := !s.isEnabled }
  if s'.isEnabled then startPolling s' else stopPolling s'

/-- The `.then` continuation of the discovery run: in `activate`,
`if (isEnabled) startPolling()`; in the configuration-change listener,
`if (isEnabled) startPolling() else stopPolling()`. -/
def runContinuation : ContKind → SysState → SysState
  | .activation, s => if s.isEnabled then startPolling s else s
  | .onConfig, s => if s.isEnabled then startPolling s else stopPolling s

/-- One event handler execution. -/
def step (s : SysState) (e : Event) : SysState :=
  match e with
  | .toggle => toggleAutoAccept s
  | .configChange en =>
      { s with isEnabled := en, pending := s.pending ++ [ContKind.onConfig] }
  | .complete k fetch cfg =>
      if k ∈ s.pending then
        let s' := { s with pending := s.pending.erase k }
        match fetch with
        | none => s'
        | some registry =>
            runContinuation k
              { s' with discovered := discoverAcceptCommands registry cfg }
      else s
  | .tick outcome =>
      if s.timer then
        if !s.isEnabled || s.discovered.isEmpty then s
        else { s with log := s.log ++ s.discovered.map fun c => (c, outcome c) }
      else s

/-- The state right after `activate` returns: the flag holds the
configured `enabled` value, no timer is armed yet, `discoveredCommands`
is empty, and the initial discovery run is pending. -/
def initState (cfg : Config) : SysState :=
  { isEnabled := cfg.enabled
  , timer := false
  , discovered := []
  , pending := [ContKind.activation]
  , log := [] }

/-- A state the program can be in after activation and any sequence of
host events. -/
def Reachable (cfg : Config) (s : SysState) : Prop :=
  ∃ events : List Event, s = events.foldl step (initState cfg)

/-- Events that cannot set the enabled flag back to `true`. -/
def keepsDisabled : Event → Bool
  | .toggle => false
  | .configChange en => !en
  | .complete _ _ _ => true
  | .tick _ => true

/-! ## Concrete fixtures used by witnesses and counterexamples -/

/-- The registry of the three-command discovery scenario. -/
def threeCommandRegistry : List String :=
  [ "antigravity.terminalCommand.accept"
  , "github.copilot.acceptSuggestion"
  , "workbench.action.unrelated" ]

/-- The default configuration with the copilot provider disabled. -/
def copilotDisabledConfig : Config :=
  { enabled := true
  , aggressiveMode := false
  , providerEnabled := fun k => !(k == "copilot")
  , commandPatterns := defaultPatterns }

/-- A dispatch-loop state with the timer armed, one discovered command,
and a pending configuration-change discovery. -/
def enabledFixture : SysState :=
  { isEnabled := true
  , timer := true
  , discovered := ["antigravity.terminalCommand.accept"]
  , pending := [ContKind.onConfig]
  , log := [] }

/-! ## Membership lemmas for the discovery pipeline -/

theorem mem_dedupAux {a : String} (l : List String) : ∀ seen : List String,
    a ∈ dedupAux seen l ↔ a ∈ l ∧ a ∉ seen := by
  induction l with
  | nil => intro seen; simp [dedupAux]
  | cons x xs ih =>
      intro seen
      unfold dedupAux
      by_cases h : x ∈ seen
      · rw [if_pos h, ih seen]
        constructor
        · rintro ⟨h1, h2⟩
          exact ⟨List.mem_cons_of_mem _ h1, h2⟩
        · rintro ⟨h1, h2⟩
          rcases List.mem_cons.mp h1 with rfl | h1
          · exact absurd h h2
          · exact ⟨h1, h2⟩
      · rw [if_neg h, List.mem_cons, ih (x :: seen)]
        constructor
        · rintro (rfl | ⟨h1, h2⟩)
          · exact ⟨List.mem_cons_self _ _, h⟩
          · exact ⟨List.mem_cons_of_mem _ h1,
              fun hs => h2 (List.mem_cons_of_mem _ hs)⟩
        · rintro ⟨h1, h2⟩
          by_cases hax : a = x
          · exact Or.inl hax
          · rcases List.mem_cons.mp h1 with h1 | h1
            · exact absurd h1 hax
            · refine Or.inr ⟨h1, fun hs => ?_⟩
              rcases List.mem_cons.mp hs with hs | hs
              · exact hax hs
              · exact h2 hs

theorem mem_dedupFirst {a : String} {l : List String} :
    a ∈ dedupFirst l ↔ a ∈ l := by
  unfold dedupFirst
  rw [mem_dedupAux]
  simp

theorem nodup_dedupAux (l : List String) : ∀ seen : List String,
    (dedupAux seen l).Nodup := by
  induction l with
  | nil => intro seen; simp [dedupAux]
  | cons x xs ih =>
      intro seen
      unfold dedupAux
      by_cases h : x ∈ seen
      · rw [if_pos h]; exact ih seen
      · rw [if_neg h]
        refine List.nodup_cons.mpr ⟨fun hc => ?_, ih (x :: seen)⟩
        exact ((mem_dedupAux xs (x :: seen)).mp hc).2 (List.mem_cons_self _ _)

theorem mem_providerContribution {cfg : Config} {p : ProviderDef} {cmd : String} :
    cmd ∈ providerContribution cfg p ↔
      cfg.providerEnabled p.key = true ∧
        (cmd ∈ p.safeCommands ∨
          (cfg.aggressiveMode = true ∧ cmd ∈ p.aggressiveCommands)) := by
  unfold providerContribution
  by_cases h : cfg.providerEnabled p.key = true
  · by_cases h2 : cfg.aggressiveMode = true
    · simp [h, h2]
    · simp [h, h2]
  · simp [h]

theorem mem_getEnabledProviderCommands {cfg : Config} {cmd : String} :
    cmd ∈ getEnabledProviderCommands cfg ↔
      (∃ p, p ∈ PROVIDERS ∧ cfg.providerEnabled p.key = true ∧
        (cmd ∈ p.safeCommands ∨
          (cfg.aggressiveMode = true ∧ cmd ∈ p.aggressiveCommands))) ∨
      cmd ∈ BUILTIN_COMMANDS := by
  unfold getEnabledProviderCommands
  rw [List.mem_append, List.mem_flatten]
  constructor
  · rintro (⟨l, hl, hcmd⟩ | hb)
    · rcases List.mem_map.mp hl with ⟨p, hp, rfl⟩
      rcases mem_providerContribution.mp hcmd with ⟨hen, hsrc⟩
      exact Or.inl ⟨p, hp, hen, hsrc⟩
    · exact Or.inr hb
  · rintro (⟨p, hp, hen, hsrc⟩ | hb)
    · exact Or.inl ⟨providerContribution cfg p,
        List.mem_map_of_mem _ hp, mem_providerContribution.mpr ⟨hen, hsrc⟩⟩
    · exact Or.inr hb

theorem mem_discoverAcceptCommands {allCommands : List String} {cfg : Config}
    {cmd : String} :
    cmd ∈ discoverAcceptCommands allCommands cfg ↔
      (cmd ∈ getEnabledProviderCommands cfg ∧ cmd ∈ allCommands) ∨
      (cmd ∈ allCommands ∧
        patternCandidate cfg (allContextKeywords cfg) cmd = true ∧
        ((disabledKeywords cfg).any fun kw =>
          strIncludes (toLowerStr cmd) kw) = false) := by
  unfold discoverAcceptCommands
  rw [mem_dedupFirst, List.mem_append, List.mem_filter, List.mem_filter,
    List.mem_filter]
  constructor
  · rintro (⟨hk, hc⟩ | ⟨⟨ha, hp⟩, hd⟩)
    · exact Or.inl ⟨hk, List.elem_iff.mp hc⟩
    · refine Or.inr ⟨ha, hp, ?_⟩
      cases hany : (disabledKeywords cfg).any fun kw => strIncludes (toLowerStr cmd) kw
      · rfl
      · rw [hany] at hd
        exact absurd hd (by simp)
  · rintro (⟨hk, hc⟩ | ⟨ha, hp, hd⟩)
    · exact Or.inl ⟨hk, List.elem_iff.mpr hc⟩
    · exact Or.inr ⟨⟨ha, hp⟩, by rw [hd]; rfl⟩

/-! ## Concrete facts about the catalog, checked by evaluation -/

/-- No known command of a provider `q` contains, after lowering, a context
keyword of a *different* provider `p`: the providers' command namespaces
are disjoint. -/
theorem known_commands_keyword_disjoint :
    ∀ p ∈ PROVIDERS, ∀ q ∈ PROVIDERS, p.key ≠ q.key →
      ∀ cmd ∈ q.safeCommands ++ q.aggressiveCommands,
        ∀ kw ∈ p.contextKeywords,
          strIncludes (toLowerStr cmd) kw = false := by decide

/-- No built-in command contains any provider's context keyword. -/
theorem builtin_keyword_free :
    ∀ p ∈ PROVIDERS, ∀ cmd ∈ BUILTIN_COMMANDS,
      ∀ kw ∈ p.contextKeywords,
        strIncludes (toLowerStr cmd) kw = false := by decide

theorem step_disabled_no_invoke (s : SysState) (e : Event)
    (hdis : s.isEnabled = false) (he : keepsDisabled e = true) :
    (step s e).isEnabled = false ∧ (step s e).log = s.log := by
  cases e with
  | toggle => simp [keepsDisabled] at he
  | configChange en =>
      simp only [keepsDisabled, Bool.not_eq_true'] at he
      simp [step, he]
  | complete k fetch cfg =>
      simp only [step]
      by_cases h : k ∈ s.pending
      · rw [if_pos h]
        cases fetch with
        | none => exact ⟨hdis, rfl⟩
        | some registry =>
            cases k with
            | activation => simp [runContinuation, hdis]
            | onConfig => simp [runContinuation, hdis, stopPolling]
      · rw [if_neg h]
        exact ⟨hdis, rfl⟩
  | tick outcome =>
      simp only [step]
      by_cases h : s.timer = true
      · rw [if_pos h, hdis]
        simp [hdis]
      · simp only [Bool.not_eq_true] at h
        rw [h]
        simp [hdis]

theorem trace_disabled_no_invoke (events : List Event) (s : SysState)
    (hdis : s.isEnabled = false)
    (he : ∀ e ∈ events, keepsDisabled e = true) :
    (events.foldl step s).isEnabled = false ∧
      (events.foldl step s).log = s.log := by
  induction events generalizing s with
  | nil => exact ⟨hdis, rfl⟩
  | cons e es ih =>
      have h1 := step_disabled_no_invoke s e hdis (he e (List.mem_cons_self _ _))
      have h2 := ih (step s e) h1.1 fun e' h => he e' (List.mem_cons_of_mem _ h)
      exact ⟨h2.1, h2.2.trans h1.2⟩

theorem patternCandidate_excludes_completion {cfg : Config}
    {kws : List String} {cmd : String} (hagg : cfg.aggressiveMode = false)
    (hcompl : (strIncludes (toLowerStr cmd) "completion" ||
      strIncludes (toLowerStr cmd) "suggestion" ||
      strIncludes (toLowerStr cmd) "supercomplete") = true) :
    patternCandidate cfg kws cmd = false := by
  unfold patternCandidate
  rw [hagg]
  simp [hcompl]

/-! ## The claims -/

/-- C1 counterexample: the claim fails as stated.  With the default
configuration (`aggressiveMode=false`) and a registry exposing the
safe-listed command `antigravity.prioritized.terminalSuggestion.accept`
— whose lower-cased identifier contains "suggestion" and which satisfies
the context, accept-pattern and safe-action keyword conditions — that
command nevertheless appears in the discovered set. -/
theorem suggestion_command_discovered_in_safe_mode :
    defaultConfig.aggressiveMode = false ∧
    strIncludes (toLowerStr "antigravity.prioritized.terminalSuggestion.accept")
      "suggestion" = true ∧
    ((allContextKeywords defaultConfig).any fun kw =>
      strIncludes (toLowerStr "antigravity.prioritized.terminalSuggestion.accept") kw) = true ∧
    (defaultConfig.commandPatterns.any fun p =>
      strIncludes (toLowerStr "antigravity.prioritized.terminalSuggestion.accept")
        (toLowerStr p)) = true ∧
    (["terminal", "agent", "chat"].any fun kw =>
      strIncludes (toLowerStr "antigravity.prioritized.terminalSuggestion.accept") kw) = true ∧
    "antigravity.prioritized.terminalSuggestion.accept" ∈
      discoverAcceptCommands
        ["antigravity.prioritized.terminalSuggestion.accept"] defaultConfig :=
  ⟨rfl, by decide, by decide, by decide, by decide, by decide⟩

/-- C1 (amended): with `aggressiveMode=false`, every command in the
discovered set whose lower-cased identifier contains "completion",
"suggestion" or "supercomplete" comes from the known enabled
safe/built-in command lists (`getEnabledProviderCommands`); the
completion/suggestion/supercomplete exclusion is applied only to
pattern-derived candidates. -/
theorem safe_mode_completion_only_from_known
    (allCommands : List String) (cfg : Config) (cmd : String)
    (hagg : cfg.aggressiveMode = false)
    (hmem : cmd ∈ discoverAcceptCommands allCommands cfg)
    (hcompl : (strIncludes (toLowerStr cmd) "completion" ||
      strIncludes (toLowerStr cmd) "suggestion" ||
      strIncludes (toLowerStr cmd) "supercomplete") = true) :
    cmd ∈ getEnabledProviderCommands cfg := by
  rcases mem_discoverAcceptCommands.mp hmem with ⟨h, _⟩ | ⟨_, hpat, _⟩
  · exact h
  · rw [patternCandidate_excludes_completion hagg hcompl] at hpat
    cases hpat

/-- Witness for the amended C1 at a concrete input. -/
theorem safe_mode_completion_only_from_known_witness :
    "antigravity.prioritized.terminalSuggestion.accept" ∈
      getEnabledProviderCommands defaultConfig :=
  safe_mode_completion_only_from_known
    ["antigravity.prioritized.terminalSuggestion.accept"] defaultConfig
    "antigravity.prioritized.terminalSuggestion.accept"
    rfl (by decide) (by decide)

/-- C2: on the registry
{`antigravity.terminalCommand.accept`, `github.copilot.acceptSuggestion`,
`workbench.action.unrelated`} with the default configuration, discovery
yields exactly {`antigravity.terminalCommand.accept`}; no built-in
command is in this registry, and the other two registry entries are
excluded. -/
theorem discovery_three_command_registry :
    discoverAcceptCommands threeCommandRegistry defaultConfig
      = ["antigravity.terminalCommand.accept"] ∧
    "github.copilot.acceptSuggestion" ∉
      discoverAcceptCommands threeCommandRegistry defaultConfig ∧
    "workbench.action.unrelated" ∉
      discoverAcceptCommands threeCommandRegistry defaultConfig ∧
    BUILTIN_COMMANDS.all (fun b => !threeCommandRegistry.contains b) = true :=
  ⟨by decide, by decide, by decide, by decide⟩

/-- C3: a disabled provider contributes nothing: no command of the
discovered set contains (lower-cased) a context keyword of a disabled
provider, neither via the known-command intersection nor via the pattern
classifier. -/
theorem disabled_provider_never_contributes
    (allCommands : List String) (cfg : Config) (p : ProviderDef)
    (hp : p ∈ PROVIDERS) (hdis : cfg.providerEnabled p.key = false)
    (cmd : String) (hmem : cmd ∈ discoverAcceptCommands allCommands cfg)
    (kw : String) (hkw : kw ∈ p.contextKeywords) :
    strIncludes (toLowerStr cmd) kw = false := by
  rcases mem_discoverAcceptCommands.mp hmem with ⟨hk, _⟩ | ⟨_, _, hno⟩
  · rcases mem_getEnabledProviderCommands.mp hk with ⟨q, hq, hqen, hsrc⟩ | hb
    · have hne : p.key ≠ q.key := by
        intro h
        rw [h, hqen] at hdis
        cases hdis
      have hcmd : cmd ∈ q.safeCommands ++ q.aggressiveCommands := by
        rcases hsrc with h | ⟨_, h⟩
        · exact List.mem_append_left _ h
        · exact List.mem_append_right _ h
      exact known_commands_keyword_disjoint p hp q hq hne cmd hcmd kw hkw
    · exact builtin_keyword_free p hp cmd hb kw hkw
  · have hkwd : kw ∈ disabledKeywords cfg := by
      unfold disabledKeywords
      rw [List.mem_flatten]
      refine ⟨p.contextKeywords, List.mem_map_of_mem _ ?_, hkw⟩
      refine List.mem_filter.mpr ⟨hp, ?_⟩
      rw [hdis]
      rfl
    cases hsi : strIncludes (toLowerStr cmd) kw
    · rfl
    · exfalso
      have hany : ((disabledKeywords cfg).any fun kw =>
          strIncludes (toLowerStr cmd) kw) = true :=
        List.any_eq_true.mpr ⟨kw, hkwd, hsi⟩
      rw [hany] at hno
      cases hno

/-- Witness for C3 at a concrete input: with copilot disabled, the
discovered command contains no "copilot" keyword. -/
theorem disabled_provider_never_contributes_witness :
    copilotDisabledConfig.providerEnabled "copilot" = false ∧
    "antigravity.terminalCommand.accept" ∈
      discoverAcceptCommands
        ["antigravity.terminalCommand.accept",
          "github.copilot.terminal.acceptCommand"] copilotDisabledConfig ∧
    strIncludes (toLowerStr "antigravity.terminalCommand.accept") "copilot"
      = false :=
  ⟨by decide, by decide,
    disabled_provider_never_contributes
      ["antigravity.terminalCommand.accept",
        "github.copilot.terminal.acceptCommand"] copilotDisabledConfig
      (PROVIDERS.get ⟨1, by decide⟩) (by decide) (by decide)
      "antigravity.terminalCommand.accept" (by decide) "copilot" (by decide)⟩

/-- C4: when the registry fetch of a discovery run rejects, the shared
`discoveredCommands` state is exactly what it was before the run: the
only assignment to it sits after the fetch in `discoverAcceptCommands`,
so a rejection skips it (and the `.then` continuation). -/
theorem discovery_failure_atomic (s : SysState) (k : ContKind) (cfg : Config) :
    (step s (Event.complete k none cfg)).discovered = s.discovered := by
  simp only [step]
  by_cases h : k ∈ s.pending
  · rw [if_pos h]
  · rw [if_neg h]

/-- C5 counterexample: the claim fails as stated.  The post-activation
state with `enabled=true` is reachable (empty event trace from
activation) and violates the equivalence: the flag is set but no timer
handle exists yet, because polling only starts in the continuation of
the initial asynchronous discovery. -/
theorem timer_invariant_counterexample :
    Reachable defaultConfig (initState defaultConfig) ∧
    (initState defaultConfig).isEnabled = true ∧
    (initState defaultConfig).timer = false :=
  ⟨⟨[], rfl⟩, rfl, rfl⟩

/-- C5 (amended): the equivalence "a timer handle exists iff enabled" is
established atomically by every toggle, and by the continuation of every
successful configuration-change discovery; it need not hold in the
window between activation (or a configuration change) and the
corresponding asynchronous discovery completion, nor after a failed
discovery whose continuation is skipped. -/
theorem toggle_restores_timer_invariant (s : SysState)
    (registry : List String) (cfg : Config)
    (hp : ContKind.onConfig ∈ s.pending) :
    ((step s Event.toggle).timer = (step s Event.toggle).isEnabled) ∧
    ((step s (Event.complete ContKind.onConfig (some registry) cfg)).timer =
      (step s (Event.complete ContKind.onConfig (some registry) cfg)).isEnabled) := by
  constructor
  · simp only [step, toggleAutoAccept]
    by_cases h : s.isEnabled
    · simp [h, startPolling, stopPolling]
    · simp [h, startPolling, stopPolling]
  · simp only [step]
    rw [if_pos hp]
    simp only [runContinuation]
    by_cases h : s.isEnabled
    · simp [h, startPolling]
    · simp [h, stopPolling]

/-- Witness for the amended C5 at a concrete state. -/
theorem toggle_restores_timer_invariant_witness :
    ((step enabledFixture Event.toggle).timer =
      (step enabledFixture Event.toggle).isEnabled) ∧
    ((step enabledFixture (Event.complete ContKind.onConfig
        (some ["antigravity.terminalCommand.accept"]) defaultConfig)).timer =
      (step enabledFixture (Event.complete ContKind.onConfig
        (some ["antigravity.terminalCommand.accept"]) defaultConfig)).isEnabled) :=
  toggle_restores_timer_invariant enabledFixture
    ["antigravity.terminalCommand.accept"] defaultConfig (by decide)

/-- C6: a tick with the flag off or an empty discovered set performs no
invocation; otherwise every discovered command is invoked, each paired
with its own host-reported outcome (`Promise.allSettled` — one failing
invocation never suppresses a sibling); and a tick never changes the
timer. -/
theorem tick_dispatch (s : SysState) (outcome : String → Bool) :
    ((s.isEnabled = false ∨ s.discovered = []) →
      (step s (Event.tick outcome)).log = s.log) ∧
    (s.timer = true → s.isEnabled = true → s.discovered ≠ [] →
      (step s (Event.tick outcome)).log =
        s.log ++ s.discovered.map fun c => (c, outcome c)) ∧
    (step s (Event.tick outcome)).timer = s.timer := by
  refine ⟨?_, ?_, ?_⟩
  · intro h
    simp only [step]
    by_cases ht : s.timer = true
    · rw [if_pos ht]
      rcases h with h | h
      · rw [h]
        simp
      · rw [h]
        simp
    · rw [if_neg ht]
  · intro ht hen hne
    simp only [step]
    rw [if_pos ht, hen]
    have hie : s.discovered.isEmpty = false := by
      cases hd : s.discovered
      · exact absurd hd hne
      · rfl
    rw [hie]
    rfl
  · simp only [step]
    split_ifs <;> rfl

/-- Witness for C6 at a concrete state: all discovered commands are
invoked even when the host reports every invocation as failed. -/
theorem tick_dispatch_witness :
    enabledFixture.timer = true ∧ enabledFixture.isEnabled = true ∧
    (step enabledFixture (Event.tick fun _ => false)).log =
      enabledFixture.log ++ enabledFixture.discovered.map fun c => (c, false) :=
  ⟨rfl, rfl,
    (tick_dispatch enabledFixture fun _ => false).2.1 rfl rfl (by decide)⟩

/-- C7: the discovered command set never contains duplicate entries. -/
theorem discover_nodup (allCommands : List String) (cfg : Config) :
    (discoverAcceptCommands allCommands cfg).Nodup :=
  nodup_dedupAux _ _

/-- C8: the catalog's applicable set is exactly: for every enabled
provider its safe commands, plus its aggressive commands exactly when
aggressive mode is on, plus the built-in commands unconditionally;
commands of disabled providers are never included. -/
theorem catalog_applicable_set (cfg : Config) (cmd : String) :
    cmd ∈ getEnabledProviderCommands cfg ↔
      (∃ p, p ∈ PROVIDERS ∧ cfg.providerEnabled p.key = true ∧
        (cmd ∈ p.safeCommands ∨
          (cfg.aggressiveMode = true ∧ cmd ∈ p.aggressiveCommands))) ∨
      cmd ∈ BUILTIN_COMMANDS :=
  mem_getEnabledProviderCommands

/-- Witness for C8 at a concrete input. -/
theorem catalog_applicable_set_witness :
    "chat.action.acceptCommand" ∈ getEnabledProviderCommands defaultConfig :=
  (catalog_applicable_set defaultConfig "chat.action.acceptCommand").mpr
    (Or.inr (by decide))

/-- C9: after the toggle flips the flag from true to false, no command
invocation occurs on any later event (ticks, completions, disabling
configuration changes) as long as no event sets the flag to true
again. -/
theorem no_invocation_after_toggle_off (s : SysState) (events : List Event)
    (hen : s.isEnabled = true)
    (he : ∀ e ∈ events, keepsDisabled e = true) :
    ((Event.toggle :: events).foldl step s).log = s.log := by
  rw [List.foldl_cons]
  have h1 : (step s Event.toggle).isEnabled = false ∧
      (step s Event.toggle).log = s.log := by
    simp only [step, toggleAutoAccept]
    rw [hen]
    simp [stopPolling]
  have h2 := trace_disabled_no_invoke events (step s Event.toggle) h1.1 he
  exact h2.2.trans h1.2

/-- Witness for C9 at a concrete state and trace. -/
theorem no_invocation_after_toggle_off_witness :
    ((Event.toggle ::
        [Event.configChange false, Event.tick fun _ => true]).foldl
      step enabledFixture).log = enabledFixture.log :=
  no_invocation_after_toggle_off enabledFixture
    [Event.configChange false, Event.tick fun _ => true] rfl (by decide)

/-- C10: with aggressive mode off and the antigravity provider enabled,
the safe-listed command `antigravity.prioritized.terminalSuggestion.accept`
is discovered whenever the registry contains it: the
completion/suggestion/supercomplete exclusion applies only to
pattern-derived candidates, never to the known safe or built-in lists. -/
theorem safe_listed_suggestion_discovered
    (allCommands : List String) (cfg : Config)
    (hagg : cfg.aggressiveMode = false)
    (hen : cfg.providerEnabled "antigravity" = true)
    (hreg : "antigravity.prioritized.terminalSuggestion.accept" ∈ allCommands) :
    "antigravity.prioritized.terminalSuggestion.accept" ∈
      discoverAcceptCommands allCommands cfg := by
  refine mem_discoverAcceptCommands.mpr (Or.inl ⟨?_, hreg⟩)
  refine mem_getEnabledProviderCommands.mpr
    (Or.inl ⟨PROVIDERS.get ⟨0, by decide⟩, ?_, ?_, Or.inl ?_⟩)
  · exact List.get_mem _ _ _
  · exact hen
  · decide

/-- Witness for C10 at a concrete registry. -/
theorem safe_listed_suggestion_discovered_witness :
    "antigravity.prioritized.terminalSuggestion.accept" ∈
      discoverAcceptCommands
        ["antigravity.prioritized.terminalSuggestion.accept"] defaultConfig :=
  safe_listed_suggestion_discovered
    ["antigravity.prioritized.terminalSuggestion.accept"] defaultConfig
    rfl rfl (by decide)

end AutoAcceptAG
